import Mathlib

/-!
Shallow embedding of the semantic-analysis (indexing) pass of the dbml-rs
compiler, `src/analyzer/indexer.rs`.

Rust `BTreeMap<String, V>` values are modelled as association lists
(`List (String × V)`) with lookup returning the first binding and insertion
replacing in place; equality of Rust `BTreeMap`s (contents equality) is
modelled as pointwise equality of lookups.  Rust `BTreeSet<String>` values
are modelled as duplicate-free lists with membership tests.  The `&mut self`
indexing methods, which may mutate the builder and then return early with an
error (`throw_err(..)?`), are modelled as functions returning the state at
the point of the error together with an optional error; the read-only
lookup queries that `panic!` are modelled with an explicit `panic` outcome.
-/

/-- Association-list lookup: first binding wins (models `BTreeMap::get`). -/
def afind {α : Type} (m : List (String × α)) (k : String) : Option α :=
  match m with
  | [] => none
  | (k₀, v) :: rest => if k = k₀ then some v else afind rest k

/-- Association-list insert, replacing in place (models `BTreeMap::insert`). -/
def ainsert {α : Type} (m : List (String × α)) (k : String) (v : α) : List (String × α) :=
  match m with
  | [] => [(k, v)]
  | (k₀, v₀) :: rest => if k = k₀ then (k, v) :: rest else (k₀, v₀) :: ainsert rest k v

/-- Models `BTreeMap::contains_key`. -/
def acontains {α : Type} (m : List (String × α)) (k : String) : Bool :=
  (afind m k).isSome

/-- Models `BTreeSet<String>::get(..).is_some()` (membership). -/
def smem (s : List String) (x : String) : Bool :=
  match s with
  | [] => false
  | y :: rest => if x = y then true else smem rest x

/-- Models membership in a `BTreeSet<(String, String)>`. -/
def pmem (s : List (String × String)) (x : String × String) : Bool :=
  match s with
  | [] => false
  | y :: rest => if x = y then true else pmem rest x

/-- An identifier from the syntax tree: source span plus raw and normalized
text (`Ident` in the Rust source). -/
structure Ident where
  span_range : Nat × Nat
  raw : String
  to_string : String
deriving DecidableEq

/-- A table identifier: optional schema qualifier, table name, optional
alias (`TableIdent`). -/
structure TableIdent where
  span_range : Nat × Nat
  schema : Option Ident
  name : Ident
  «alias» : Option Ident
deriving DecidableEq

/-- A column declaration; only the fields the indexer reads. -/
structure TableColumn where
  span_range : Nat × Nat
  name : Ident
deriving DecidableEq

/-- A table declaration; only the fields the indexer reads (`TableBlock`). -/
structure TableBlock where
  ident : TableIdent
  cols : List TableColumn
deriving DecidableEq

/-- An enum identifier (`EnumIdent`). -/
structure EnumIdent where
  span_range : Nat × Nat
  schema : Option Ident
  name : Ident
deriving DecidableEq

/-- An enum value declaration; only the fields the indexer reads. -/
structure EnumValue where
  span_range : Nat × Nat
  value : Ident
deriving DecidableEq

/-- An enum declaration; only the fields the indexer reads (`EnumBlock`). -/
structure EnumBlock where
  ident : EnumIdent
  values : List EnumValue
deriving DecidableEq

/-- A table-group member item: optional schema qualifier and an identifier
that is either a table name or an alias (`TableGroupItem`). -/
structure TableGroupItem where
  span_range : Nat × Nat
  schema : Option Ident
  ident_alias : Ident
deriving DecidableEq

/-- A table-group declaration (`TableGroupBlock`). -/
structure TableGroupBlock where
  ident : Ident
  items : List TableGroupItem
deriving DecidableEq

/-- A reference identifier (`RefIdent`): optional schema, table, and
trailing composition path. -/
structure RefIdent where
  span_range : Nat × Nat
  schema : Option Ident
  table : Ident
  compositions : List Ident
deriving DecidableEq

/-- The error kinds raised by the indexer (`Err` in the Rust source). -/
inductive ErrKind where
  | DuplicatedTableName
  | DuplicatedColumnName
  | DuplicatedAlias
  | DuplicatedEnumName
  | DuplicatedEnumValue
  | DuplicatedTableGroupName
  | TableNotFound
  | DuplicatedTableGroupItem
deriving DecidableEq

/-- An analyzer error: kind plus offending source span (what `throw_err`
reports). -/
structure AErr where
  kind : ErrKind
  span : Nat × Nat
deriving DecidableEq

/-- Modelled from the spec: `DEFAULT_SCHEMA` is declared outside
`indexer.rs`; the spec describes it as "a well-known constant name
substituted whenever a syntax-tree identifier omits an explicit schema
qualifier".  Its concrete text is irrelevant to the indexer's logic. -/
def DEFAULT_SCHEMA : String := "public"

/-- Per-schema index: table names with their column sets, enum names with
their value sets (`IndexedSchemaBlock`). -/
structure IndexedSchemaBlock where
  table_map : List (String × List String)
  enum_map : List (String × List String)
deriving DecidableEq

/-- The symbol-table builder (`Indexer`). -/
structure Indexer where
  table_group_map : List (String × List (String × String))
  schema_map : List (String × IndexedSchemaBlock)
  table_alias_map : List (String × (String × String))
deriving DecidableEq

/-- `Indexer::default()`: the empty builder. -/
def Indexer.empty : Indexer :=
  { table_group_map := [], schema_map := [], table_alias_map := [] }

/-- `Indexer::contains_table`. -/
def Indexer.contains_table (idx : Indexer) (schema name : String) : Bool :=
  match afind idx.schema_map schema with
  | some item => acontains item.table_map name
  | none => false

/-- `Indexer::contains_enum`. -/
def Indexer.contains_enum (idx : Indexer) (schema name : String) : Bool :=
  match afind idx.schema_map schema with
  | some item => acontains item.enum_map name
  | none => false

/-- The schema resolved for a table declaration: the explicit qualifier if
present, else the default schema (the `let schema = ...` of `index_table`). -/
def TableBlock.schemaName (t : TableBlock) : String :=
  match t.ident.schema with
  | some s => s.to_string
  | none => DEFAULT_SCHEMA

/-- The schema resolved for an enum declaration (the `let schema = ...` of
`index_enums`). -/
def EnumBlock.schemaName (e : EnumBlock) : String :=
  match e.ident.schema with
  | some s => s.to_string
  | none => DEFAULT_SCHEMA

/-- The column-scanning loop of `Indexer::index_table`: accumulates a set of
column names, failing with `DuplicatedColumnName` at the first repeat. -/
def indexCols (cols : List TableColumn) (indexed_cols : List String) :
    List String × Option AErr :=
  match cols with
  | [] => (indexed_cols, none)
  | col :: rest =>
    if smem indexed_cols col.name.to_string then
      (indexed_cols, some ⟨.DuplicatedColumnName, col.span_range⟩)
    else
      indexCols rest (indexed_cols ++ [col.name.to_string])

/-- The body of `Indexer::index_table`'s loop for one table declaration.
Returns the (possibly mutated) builder together with an optional error:
on error the builder retains every mutation made before the early return. -/
def Indexer.index_table_step (idx : Indexer) (table : TableBlock) :
    Indexer × Option AErr :=
  let schema := table.schemaName
  if idx.contains_table schema table.ident.name.to_string then
    (idx, some ⟨.DuplicatedTableName, table.ident.span_range⟩)
  else
    match indexCols table.cols [] with
    | (_, some e) => (idx, some e)
    | (indexed_cols, none) =>
      match afind idx.schema_map schema with
      | some index_block =>
        let index_block :=
          { index_block with
            table_map := ainsert index_block.table_map table.ident.name.to_string indexed_cols }
        let idx := { idx with schema_map := ainsert idx.schema_map schema index_block }
        match table.ident.«alias» with
        | some a =>
          match afind idx.table_alias_map a.to_string with
          | some _ => (idx, some ⟨.DuplicatedAlias, a.span_range⟩)
          | none =>
            ({ idx with
               table_alias_map :=
                 ainsert idx.table_alias_map a.to_string
                   (schema, table.ident.name.to_string) }, none)
        | none => (idx, none)
      | none =>
        let index_block : IndexedSchemaBlock :=
          { table_map := ainsert [] table.ident.name.to_string indexed_cols, enum_map := [] }
        let idx :=
          match table.ident.«alias» with
          | some a =>
            { idx with
              table_alias_map :=
                ainsert idx.table_alias_map a.to_string
                  (schema, table.ident.name.to_string) }
          | none => idx
        ({ idx with schema_map := ainsert idx.schema_map schema index_block }, none)

/-- `Indexer::index_table`: processes table declarations in order, stopping
at the first error. -/
def Indexer.index_table (idx : Indexer) (tables : List TableBlock) :
    Indexer × Option AErr :=
  match tables with
  | [] => (idx, none)
  | table :: rest =>
    match idx.index_table_step table with
    | (idx, none) => idx.index_table rest
    | (idx, some e) => (idx, some e)

/-- The value-scanning loop of `Indexer::index_enums`. -/
def indexValues (values : List EnumValue) (value_sets : List String) :
    List String × Option AErr :=
  match values with
  | [] => (value_sets, none)
  | value :: rest =>
    if smem value_sets value.value.to_string then
      (value_sets, some ⟨.DuplicatedEnumValue, value.span_range⟩)
    else
      indexValues rest (value_sets ++ [value.value.to_string])

/-- The body of `Indexer::index_enums`'s loop for one enum declaration. -/
def Indexer.index_enums_step (idx : Indexer) (enum : EnumBlock) :
    Indexer × Option AErr :=
  let schema := enum.schemaName
  if idx.contains_enum schema enum.ident.name.to_string then
    (idx, some ⟨.DuplicatedEnumName, enum.ident.span_range⟩)
  else
    match indexValues enum.values [] with
    | (_, some e) => (idx, some e)
    | (value_sets, none) =>
      match afind idx.schema_map schema with
      | some index_block =>
        let index_block :=
          { index_block with
            enum_map := ainsert index_block.enum_map enum.ident.name.to_string value_sets }
        ({ idx with schema_map := ainsert idx.schema_map schema index_block }, none)
      | none =>
        let index_block : IndexedSchemaBlock :=
          { table_map := [], enum_map := ainsert [] enum.ident.name.to_string value_sets }
        ({ idx with schema_map := ainsert idx.schema_map schema index_block }, none)

/-- `Indexer::index_enums`. -/
def Indexer.index_enums (idx : Indexer) (enums : List EnumBlock) :
    Indexer × Option AErr :=
  match enums with
  | [] => (idx, none)
  | enum :: rest =>
    match idx.index_enums_step enum with
    | (idx, none) => idx.index_enums rest
    | (idx, some e) => (idx, some e)

/-- `Indexer::resolve_alias`. -/
def Indexer.resolve_alias (idx : Indexer) (table_alias : String) :
    Option (String × String) :=
  afind idx.table_alias_map table_alias

/-- The member-item resolution of `Indexer::index_table_groups`: explicit
schema qualifier is taken as-is; otherwise the identifier is first tried as
an alias, then as a table of the default schema. -/
def Indexer.resolveGroupItem (idx : Indexer) (group_item : TableGroupItem) :
    Except AErr (String × String) :=
  match group_item.schema with
  | some item_schema =>
    .ok (item_schema.to_string, group_item.ident_alias.to_string)
  | none =>
    match idx.resolve_alias group_item.ident_alias.to_string with
    | some ident => .ok ident
    | none =>
      let has_table :=
        match afind idx.schema_map DEFAULT_SCHEMA with
        | some item => acontains item.table_map group_item.ident_alias.to_string
        | none => false
      if has_table then
        .ok (DEFAULT_SCHEMA, group_item.ident_alias.to_string)
      else
        .error ⟨.TableNotFound, group_item.span_range⟩

/-- The item loop of `Indexer::index_table_groups`: resolves each member to
a `(schema, table)` pair and accumulates the set, failing with
`DuplicatedTableGroupItem` at a repeated pair. -/
def Indexer.indexGroupItems (idx : Indexer) (items : List TableGroupItem)
    (indexed_items : List (String × String)) :
    Except AErr (List (String × String)) :=
  match items with
  | [] => .ok indexed_items
  | group_item :: rest =>
    match idx.resolveGroupItem group_item with
    | .error e => .error e
    | .ok ident =>
      if pmem indexed_items ident then
        .error ⟨.DuplicatedTableGroupItem, group_item.span_range⟩
      else
        idx.indexGroupItems rest (indexed_items ++ [ident])

/-- `Indexer::index_table_groups`. -/
def Indexer.index_table_groups (idx : Indexer)
    (table_groups : List TableGroupBlock) : Indexer × Option AErr :=
  match table_groups with
  | [] => (idx, none)
  | table_group :: rest =>
    if (afind idx.table_group_map table_group.ident.to_string).isSome then
      (idx, some ⟨.DuplicatedTableGroupName, table_group.ident.span_range⟩)
    else
      match idx.indexGroupItems table_group.items [] with
      | .error e => (idx, some e)
      | .ok indexed_items =>
        Indexer.index_table_groups
          { idx with
            table_group_map :=
              ainsert idx.table_group_map table_group.ident.to_string indexed_items }
          rest

/-- Outcome of a read-path lookup query: success, or a process-aborting
`panic!` with its message. -/
inductive LookupResult where
  | ok : LookupResult
  | panic : String → LookupResult
deriving DecidableEq

/-- A single-quote character, for the `panic!` message formatting. -/
def squote : String := String.singleton (Char.ofNat 39)

/-- The value-checking loop of `Indexer::lookup_enum_values`: panics at the
first requested value missing from the enum. -/
def checkEnumValues (value_set : List String) (enum_name : String)
    (values : List String) : LookupResult :=
  match values with
  | [] => .ok
  | v :: rest =>
    if smem value_set v then
      checkEnumValues value_set enum_name rest
    else
      .panic ("not found " ++ squote ++ v ++ squote ++ " value in enum " ++ squote ++ enum_name ++ squote)

/-- `Indexer::lookup_enum_values`. -/
def Indexer.lookup_enum_values (idx : Indexer) (schema : Option String)
    (enum_name : String) (values : List String) : LookupResult :=
  let schema := schema.getD DEFAULT_SCHEMA
  match afind idx.schema_map schema with
  | some block =>
    match afind block.enum_map enum_name with
    | some value_set => checkEnumValues value_set enum_name values
    | none => .panic "enum_not_found"
  | none => .panic "schema_not_found"

/-- `Indexer::lookup_table_fields`. -/
def Indexer.lookup_table_fields (idx : Indexer) (schema : Option Ident)
    (table : Ident) (fields : List Ident) : LookupResult :=
  let schema := (schema.map Ident.to_string).getD DEFAULT_SCHEMA
  match afind idx.schema_map schema with
  | some block =>
    match afind block.table_map table.to_string with
    | some col_set =>
      let unlisted_fields := fields.filter (fun v => ¬ smem col_set v.to_string)
      if unlisted_fields.isEmpty then
        .ok
      else
        .panic ("not found " ++ squote ++
          String.intercalate ", " (unlisted_fields.map Ident.to_string) ++ squote ++
          " column in table " ++ squote ++ table.to_string ++ squote)
    | none => .panic "table_not_found"
  | none => .panic "table_not_found"

/-- `Indexer::resolve_ref_alias`. -/
def Indexer.resolve_ref_alias (idx : Indexer) (ident : RefIdent) : RefIdent :=
  match idx.resolve_alias ident.table.to_string with
  | some (schema, table) =>
    { span_range := ident.span_range
      schema := some { span_range := (0, 0), raw := schema, to_string := schema }
      table := { span_range := ident.table.span_range, raw := table, to_string := table }
      compositions := ident.compositions }
  | none => ident

/-- Convenience constructor for a concrete identifier. -/
def mkId (lo hi : Nat) (s : String) : Ident :=
  { span_range := (lo, hi), raw := s, to_string := s }

/-- The canonical `(schema, table-name)` key of a table declaration. -/
def TableBlock.keyOf (t : TableBlock) : String × String :=
  (t.schemaName, t.ident.name.to_string)

/-- The canonical `(schema, enum-name)` key of an enum declaration. -/
def EnumBlock.keyOf (e : EnumBlock) : String × String :=
  (e.schemaName, e.ident.name.to_string)

/-- The normalized alias text a table declares, if any. -/
def TableBlock.aliasName (t : TableBlock) : Option String :=
  t.ident.«alias».map Ident.to_string

/-- The column set declared for the unique table with key `(s, n)` in a
declaration list, if any. -/
def findCols (T : List TableBlock) (s n : String) : Option (List String) :=
  (T.find? fun t => t.keyOf = (s, n)).map fun t => (indexCols t.cols []).1

/-- The value set declared for the unique enum with key `(s, n)` in a
declaration list, if any. -/
def findVals (E : List EnumBlock) (s n : String) : Option (List String) :=
  (E.find? fun e => e.keyOf = (s, n)).map fun e => (indexValues e.values []).1

/-- The `(schema, table)` pair of the unique table declaring alias `a`, if
any. -/
def findAlias (T : List TableBlock) (a : String) : Option (String × String) :=
  (T.find? fun t => t.aliasName = some a).map TableBlock.keyOf

/-- Well-formedness of a table-declaration list: pairwise-distinct
`(schema, name)` keys, duplicate-free columns within each table, and
pairwise-distinct aliases. -/
def TablesOk (T : List TableBlock) : Prop :=
  (T.map TableBlock.keyOf).Nodup ∧
  (∀ t ∈ T, (t.cols.map fun c => c.name.to_string).Nodup) ∧
  (T.filterMap TableBlock.aliasName).Nodup

/-- Well-formedness of an enum-declaration list: pairwise-distinct
`(schema, name)` keys and duplicate-free values within each enum. -/
def EnumsOk (E : List EnumBlock) : Prop :=
  (E.map EnumBlock.keyOf).Nodup ∧
  (∀ e ∈ E, (e.values.map fun v => v.value.to_string).Nodup)

/-- Contents equality of two per-schema blocks (Rust `BTreeMap` equality is
contents equality). -/
def IndexedSchemaBlock.MapEquiv (b₁ b₂ : IndexedSchemaBlock) : Prop :=
  (∀ n, afind b₁.table_map n = afind b₂.table_map n) ∧
  (∀ n, afind b₁.enum_map n = afind b₂.enum_map n)

/-- Contents equality lifted to optional blocks. -/
def BlockEquivO : Option IndexedSchemaBlock → Option IndexedSchemaBlock → Prop
  | none, none => True
  | some b₁, some b₂ => b₁.MapEquiv b₂
  | _, _ => False

/-- Contents equality of two builders: equal table-group, schema (with
table and enum contents), and alias maps — exactly Rust `Indexer`
equality, which compares each `BTreeMap` by contents. -/
def Indexer.MapEquiv (i₁ i₂ : Indexer) : Prop :=
  (∀ g, afind i₁.table_group_map g = afind i₂.table_group_map g) ∧
  (∀ s, BlockEquivO (afind i₁.schema_map s) (afind i₂.schema_map s)) ∧
  (∀ a, afind i₁.table_alias_map a = afind i₂.table_alias_map a)

/-- The builder `idx` is exactly the symbol table of the table declarations
`T` and enum declarations `E`: every lookup is characterized by the
declaration lists. -/
structure Represents (idx : Indexer) (T : List TableBlock) (E : List EnumBlock) : Prop where
  groups : idx.table_group_map = []
  tables : ∀ s n,
    ((afind idx.schema_map s).bind fun b => afind b.table_map n) = findCols T s n
  enums : ∀ s n,
    ((afind idx.schema_map s).bind fun b => afind b.enum_map n) = findVals E s n
  schemas : ∀ s, (afind idx.schema_map s).isSome ↔
    ((∃ t ∈ T, t.schemaName = s) ∨ (∃ e ∈ E, e.schemaName = s))
  aliases : ∀ a, afind idx.table_alias_map a = findAlias T a

/-- A concrete table: `users` in the default schema, alias `U`, column `id`. -/
def exTable1 : TableBlock :=
  { ident := { span_range := (10, 20), schema := none, name := mkId 11 16 "users",
               «alias» := some (mkId 17 18 "U") },
    cols := [{ span_range := (21, 23), name := mkId 21 23 "id" }] }

/-- The builder obtained by indexing `exTable1` alone. -/
def exIdx : Indexer := (Indexer.empty.index_table [exTable1]).1

theorem afind_ainsert_self {α : Type} (m : List (String × α)) (k : String) (v : α) :
    afind (ainsert m k v) k = some v := by
  induction m with
  | nil => simp [ainsert, afind]
  | cons hd tl ih =>
    obtain ⟨k₀, v₀⟩ := hd
    by_cases h : k = k₀
    · simp [ainsert, afind, h]
    · simp only [ainsert, if_neg h]
      simp [afind, h, ih]

theorem afind_ainsert_ne {α : Type} (m : List (String × α)) {k k₀ : String} (v : α)
    (h : k ≠ k₀) : afind (ainsert m k₀ v) k = afind m k := by
  induction m with
  | nil => simp [ainsert, afind, h]
  | cons hd tl ih =>
    obtain ⟨k₁, v₁⟩ := hd
    by_cases h₁ : k₀ = k₁
    · subst h₁
      simp [ainsert, afind, h, ih]
    · simp only [ainsert, if_neg h₁]
      by_cases h₂ : k = k₁
      · simp [afind, h₂]
      · simp [afind, h₂, ih]

theorem smem_iff_mem (s : List String) (x : String) : smem s x = true ↔ x ∈ s := by
  induction s with
  | nil => simp [smem]
  | cons y rest ih =>
    by_cases h : x = y
    · simp [smem, h]
    · simp [smem, h, ih]

theorem contains_table_eq_bind (idx : Indexer) (s n : String) :
    idx.contains_table s n =
      ((afind idx.schema_map s).bind fun b => afind b.table_map n).isSome := by
  unfold Indexer.contains_table acontains
  cases afind idx.schema_map s <;> rfl

theorem contains_enum_eq_bind (idx : Indexer) (s n : String) :
    idx.contains_enum s n =
      ((afind idx.schema_map s).bind fun b => afind b.enum_map n).isSome := by
  unfold Indexer.contains_enum acontains
  cases afind idx.schema_map s <;> rfl

/-- Claim C8: for every schema name with no entry in the schema map,
`contains_table` and `contains_enum` return `false` for every name,
without raising any error. -/
theorem contains_queries_false_on_absent_schema (idx : Indexer) (schema : String)
    (h : afind idx.schema_map schema = none) :
    ∀ name : String,
      idx.contains_table schema name = false ∧ idx.contains_enum schema name = false := by
  intro name
  constructor
  · simp [Indexer.contains_table, h]
  · simp [Indexer.contains_enum, h]

theorem contains_queries_false_on_absent_schema_witness :
    afind Indexer.empty.schema_map "missing" = none ∧
    (Indexer.empty.contains_table "missing" "users" = false ∧
      Indexer.empty.contains_enum "missing" "users" = false) :=
  ⟨rfl, contains_queries_false_on_absent_schema Indexer.empty "missing" rfl "users"⟩

/-- Claim C2, evaluating the code at failing inputs: on an unknown schema both
read-path lookup queries abort with a `panic!` rather than returning a
recoverable result value, contradicting the never-panic requirement. -/
theorem lookup_queries_panic_on_unknown_schema :
    Indexer.empty.lookup_enum_values none "status" [] =
      LookupResult.panic "schema_not_found" ∧
    Indexer.empty.lookup_table_fields none (mkId 0 5 "users") [] =
      LookupResult.panic "table_not_found" :=
  ⟨rfl, rfl⟩

/-- Claim C1, evaluating the code at the failing input: a second table declaring
the already-registered alias `x` in a schema that has no entry yet in the
schema map is indexed without any error, and the alias is silently
rebound — no `DuplicatedAlias` is raised. -/
theorem duplicated_alias_missed_for_fresh_schema :
    (Indexer.empty.index_table
      [{ ident := { span_range := (0, 5), schema := none, name := mkId 1 2 "t1",
                    «alias» := some (mkId 3 4 "x") }, cols := [] },
       { ident := { span_range := (6, 12), schema := some (mkId 6 7 "s2"),
                    name := mkId 8 9 "t2", «alias» := some (mkId 10 11 "x") },
         cols := [] }]).2 = none ∧
    (Indexer.empty.index_table
      [{ ident := { span_range := (0, 5), schema := none, name := mkId 1 2 "t1",
                    «alias» := some (mkId 3 4 "x") }, cols := [] },
       { ident := { span_range := (6, 12), schema := some (mkId 6 7 "s2"),
                    name := mkId 8 9 "t2", «alias» := some (mkId 10 11 "x") },
         cols := [] }]).1.resolve_alias "x" = some ("s2", "t2") :=
  ⟨rfl, rfl⟩

/-- A reference that goes through the alias `U` while already carrying an
explicit schema qualifier. -/
def exRef : RefIdent :=
  { span_range := (30, 40), schema := some (mkId 30 31 "other"),
    table := mkId 32 33 "U", compositions := [mkId 34 35 "col"] }

/-- A reference whose table component is not a registered alias of `exIdx`. -/
def exRefPlain : RefIdent :=
  { span_range := (50, 60), schema := none, table := mkId 51 55 "ghost",
    compositions := [] }

/-- A reference through the alias `U` with no explicit schema. -/
def exRefAlias : RefIdent :=
  { span_range := (70, 80), schema := none, table := mkId 71 72 "U",
    compositions := [] }

/-- Claim C9: when the table text matches a registered alias, `resolve_ref_alias`
replaces the schema with the alias's canonical schema — discarding any
explicit qualifier the input carried — and the substituted schema
identifier carries the empty span `(0, 0)`. -/
theorem resolve_ref_alias_overrides_schema (idx : Indexer) (r : RefIdent) (s t : String)
    (h : idx.resolve_alias r.table.to_string = some (s, t)) :
    (idx.resolve_ref_alias r).schema =
      some { span_range := (0, 0), raw := s, to_string := s } ∧
    ∀ q : Ident, idx.resolve_ref_alias { r with schema := some q } =
      idx.resolve_ref_alias r := by
  constructor
  · simp [Indexer.resolve_ref_alias, h]
  · intro q
    have h' : idx.resolve_alias ({ r with schema := some q } : RefIdent).table.to_string =
        some (s, t) := h
    simp [Indexer.resolve_ref_alias, h, h']

theorem resolve_ref_alias_overrides_schema_witness :
    exIdx.resolve_alias exRef.table.to_string = some ("public", "users") ∧
    (exIdx.resolve_ref_alias exRef).schema =
      some { span_range := (0, 0), raw := "public", to_string := "public" } ∧
    exIdx.resolve_ref_alias { exRef with schema := some (mkId 1 2 "elsewhere") } =
      exIdx.resolve_ref_alias exRef :=
  ⟨by decide,
   (resolve_ref_alias_overrides_schema exIdx exRef "public" "users" (by decide)).1,
   (resolve_ref_alias_overrides_schema exIdx exRef "public" "users" (by decide)).2
     (mkId 1 2 "elsewhere")⟩

/-- Table `b` of schema `s`, aliased `a`. -/
def c3Table1 : TableBlock :=
  { ident := { span_range := (0, 5), schema := some (mkId 0 1 "s"), name := mkId 2 3 "b",
               «alias» := some (mkId 4 5 "a") }, cols := [] }

/-- Table `c` of schema `s2`, aliased `b` — its alias equals `c3Table1`'s
table name, creating an alias chain. -/
def c3Table2 : TableBlock :=
  { ident := { span_range := (6, 11), schema := some (mkId 6 7 "s2"), name := mkId 8 9 "c",
               «alias» := some (mkId 10 11 "b") }, cols := [] }

/-- The builder indexing both chained-alias tables. -/
def c3Idx : Indexer := (Indexer.empty.index_table [c3Table1, c3Table2]).1

/-- A reference through the alias `a`. -/
def c3Ref : RefIdent :=
  { span_range := (12, 13), schema := none, table := mkId 14 15 "a", compositions := [] }

/-- Claim C3 counterexample: with the alias chain `a ↦ (s, b)`, `b ↦ (s2, c)`, a
second application of `resolve_ref_alias` resolves further — the
once-resolved reference is not a fixed point. -/
theorem resolve_ref_alias_not_idempotent :
    c3Idx.resolve_ref_alias (c3Idx.resolve_ref_alias c3Ref) ≠
      c3Idx.resolve_ref_alias c3Ref := by decide

/-- Claim C3 amended: the function `resolve_ref_alias` returns non-alias inputs unchanged, and
applying it twice equals applying it once provided the alias's target table
name is not itself a registered alias. -/
theorem resolve_ref_alias_conditionally_idempotent (idx : Indexer) (r : RefIdent) :
    (idx.resolve_alias r.table.to_string = none → idx.resolve_ref_alias r = r) ∧
    (∀ s t, idx.resolve_alias r.table.to_string = some (s, t) →
      idx.resolve_alias t = none →
      idx.resolve_ref_alias (idx.resolve_ref_alias r) = idx.resolve_ref_alias r) := by
  constructor
  · intro h
    simp [Indexer.resolve_ref_alias, h]
  · intro s t h₁ h₂
    simp [Indexer.resolve_ref_alias, h₁, h₂]

theorem resolve_ref_alias_conditionally_idempotent_witness :
    exIdx.resolve_alias exRefPlain.table.to_string = none ∧
    exIdx.resolve_ref_alias exRefPlain = exRefPlain ∧
    exIdx.resolve_alias exRefAlias.table.to_string = some ("public", "users") ∧
    exIdx.resolve_alias "users" = none ∧
    exIdx.resolve_ref_alias (exIdx.resolve_ref_alias exRefAlias) =
      exIdx.resolve_ref_alias exRefAlias :=
  ⟨by decide,
   (resolve_ref_alias_conditionally_idempotent exIdx exRefPlain).1 (by decide),
   by decide, by decide,
   (resolve_ref_alias_conditionally_idempotent exIdx exRefAlias).2 "public" "users"
     (by decide) (by decide)⟩

/-- A second table in the (already indexed) default schema re-declaring the
alias `U`. -/
def c10Table : TableBlock :=
  { ident := { span_range := (100, 110), schema := none, name := mkId 101 103 "t2",
               «alias» := some (mkId 104 105 "U") }, cols := [] }

/-- Claim C10: when `index_table` fails with `DuplicatedAlias` for a table whose
schema already has an entry in the schema map, the failing table and its
column set have already been inserted into that schema's table map before
the error is raised. -/
theorem duplicated_alias_error_keeps_table_inserted (idx : Indexer) (t : TableBlock)
    (a : Ident) (rest : List TableBlock)
    (hblock : (afind idx.schema_map t.schemaName).isSome = true)
    (halias : t.ident.«alias» = some a)
    (hdup : (afind idx.table_alias_map a.to_string).isSome = true)
    (hfresh : idx.contains_table t.schemaName t.ident.name.to_string = false)
    (hcols : (indexCols t.cols []).2 = none) :
    (idx.index_table (t :: rest)).2 = some ⟨ErrKind.DuplicatedAlias, a.span_range⟩ ∧
    (idx.index_table (t :: rest)).1.contains_table t.schemaName
      t.ident.name.to_string = true := by
  obtain ⟨block, hb⟩ := Option.isSome_iff_exists.mp hblock
  obtain ⟨pr, hp⟩ := Option.isSome_iff_exists.mp hdup
  rcases hic : indexCols t.cols [] with ⟨cs, er⟩
  have her : er = none := by rw [hic] at hcols; exact hcols
  subst her
  have hstep : idx.index_table_step t =
      ({ idx with
          schema_map :=
            ainsert idx.schema_map t.schemaName
              ({ block with
                  table_map :=
                    ainsert block.table_map t.ident.name.to_string cs }) },
       some ⟨ErrKind.DuplicatedAlias, a.span_range⟩) := by
    simp only [Indexer.index_table_step, hfresh, Bool.false_eq_true, if_false, hic, hb,
      halias, hp]
  have hrun : idx.index_table (t :: rest) =
      ({ idx with
          schema_map :=
            ainsert idx.schema_map t.schemaName
              ({ block with
                  table_map :=
                    ainsert block.table_map t.ident.name.to_string cs }) },
       some ⟨ErrKind.DuplicatedAlias, a.span_range⟩) := by
    simp only [Indexer.index_table, hstep]
  rw [hrun]
  refine ⟨rfl, ?_⟩
  simp [Indexer.contains_table, acontains, afind_ainsert_self]

theorem duplicated_alias_error_keeps_table_inserted_witness :
    (afind exIdx.schema_map c10Table.schemaName).isSome = true ∧
    c10Table.ident.«alias» = some (mkId 104 105 "U") ∧
    (afind exIdx.table_alias_map "U").isSome = true ∧
    exIdx.contains_table c10Table.schemaName c10Table.ident.name.to_string = false ∧
    (exIdx.index_table [c10Table]).2 =
      some ⟨ErrKind.DuplicatedAlias, (104, 105)⟩ ∧
    (exIdx.index_table [c10Table]).1.contains_table c10Table.schemaName
      c10Table.ident.name.to_string = true :=
  ⟨by decide, by decide, by decide, by decide,
   (duplicated_alias_error_keeps_table_inserted exIdx c10Table (mkId 104 105 "U") []
     (by decide) (by decide) (by decide) (by decide) rfl).1,
   (duplicated_alias_error_keeps_table_inserted exIdx c10Table (mkId 104 105 "U") []
     (by decide) (by decide) (by decide) (by decide) rfl).2⟩

theorem resolveGroupItem_eq (idx : Indexer) (gi : TableGroupItem) :
    idx.resolveGroupItem gi =
      (match gi.schema with
      | some s => .ok (s.to_string, gi.ident_alias.to_string)
      | none =>
        match idx.resolve_alias gi.ident_alias.to_string with
        | some p => .ok p
        | none =>
          if idx.contains_table DEFAULT_SCHEMA gi.ident_alias.to_string then
            .ok (DEFAULT_SCHEMA, gi.ident_alias.to_string)
          else
            .error ⟨.TableNotFound, gi.span_range⟩) := rfl

/-- Claim C4: a table-group member resolves by this precedence: explicit schema
qualifier taken as-is with no existence check; else a registered alias's
resolved pair; else the identifier must be a table of the default schema,
failing with `TableNotFound` when absent. -/
theorem group_item_resolution_precedence (idx : Indexer) (gi : TableGroupItem) :
    (∀ s, gi.schema = some s →
      idx.resolveGroupItem gi = .ok (s.to_string, gi.ident_alias.to_string)) ∧
    (∀ p, gi.schema = none → idx.resolve_alias gi.ident_alias.to_string = some p →
      idx.resolveGroupItem gi = .ok p) ∧
    (gi.schema = none → idx.resolve_alias gi.ident_alias.to_string = none →
      idx.contains_table DEFAULT_SCHEMA gi.ident_alias.to_string = false →
      idx.resolveGroupItem gi = .error ⟨ErrKind.TableNotFound, gi.span_range⟩) ∧
    (gi.schema = none → idx.resolve_alias gi.ident_alias.to_string = none →
      idx.contains_table DEFAULT_SCHEMA gi.ident_alias.to_string = true →
      idx.resolveGroupItem gi = .ok (DEFAULT_SCHEMA, gi.ident_alias.to_string)) := by
  refine ⟨?_, ?_, ?_, ?_⟩
  · intro s hs
    simp only [resolveGroupItem_eq, hs]
  · intro p hs hp
    simp only [resolveGroupItem_eq, hs, hp]
  · intro hs hp hct
    simp only [resolveGroupItem_eq, hs, hp, hct, Bool.false_eq_true, if_false]
  · intro hs hp hct
    simp only [resolveGroupItem_eq, hs, hp, hct, if_true]

/-- Group item with an explicit (unchecked) schema qualifier. -/
def giExplicit : TableGroupItem :=
  { span_range := (200, 210), schema := some (mkId 200 202 "gs"),
    ident_alias := mkId 203 209 "anything" }

/-- Group item referencing the alias `U`. -/
def giAliasU : TableGroupItem :=
  { span_range := (211, 220), schema := none, ident_alias := mkId 211 212 "U" }

/-- Group item referencing an unknown identifier. -/
def giGhost : TableGroupItem :=
  { span_range := (221, 230), schema := none, ident_alias := mkId 221 226 "ghost" }

/-- Group item referencing the table `users` directly. -/
def giUsers : TableGroupItem :=
  { span_range := (231, 240), schema := none, ident_alias := mkId 231 236 "users" }

theorem group_item_resolution_precedence_witness :
    exIdx.resolveGroupItem giExplicit = .ok ("gs", "anything") ∧
    exIdx.resolveGroupItem giAliasU = .ok ("public", "users") ∧
    exIdx.resolveGroupItem giGhost = .error ⟨ErrKind.TableNotFound, (221, 230)⟩ ∧
    exIdx.resolveGroupItem giUsers = .ok (DEFAULT_SCHEMA, "users") :=
  ⟨(group_item_resolution_precedence exIdx giExplicit).1 (mkId 200 202 "gs") rfl,
   (group_item_resolution_precedence exIdx giAliasU).2.1 ("public", "users") rfl (by decide),
   (group_item_resolution_precedence exIdx giGhost).2.2.1 rfl (by decide) (by decide),
   (group_item_resolution_precedence exIdx giUsers).2.2.2 rfl (by decide) (by decide)⟩

/-- Claim C5: a member referenced through its alias resolves to the same
`(schema, table)` pair as the same default-schema table referenced
directly, and listing both forms in one group fails with
`DuplicatedTableGroupItem` at the second item's span. -/
theorem alias_and_direct_group_members_collide (idx : Indexer) (g : TableGroupBlock)
    (giT giA : TableGroupItem) (t al : String)
    (hitems : g.items = [giT, giA])
    (hTschema : giT.schema = none) (hAschema : giA.schema = none)
    (hTname : giT.ident_alias.to_string = t) (hAname : giA.ident_alias.to_string = al)
    (hTalias : idx.resolve_alias t = none)
    (hTtable : idx.contains_table DEFAULT_SCHEMA t = true)
    (hAalias : idx.resolve_alias al = some (DEFAULT_SCHEMA, t))
    (hgname : afind idx.table_group_map g.ident.to_string = none) :
    idx.resolveGroupItem giA = idx.resolveGroupItem giT ∧
    idx.resolveGroupItem giA = .ok (DEFAULT_SCHEMA, t) ∧
    idx.index_table_groups [g] =
      (idx, some ⟨ErrKind.DuplicatedTableGroupItem, giA.span_range⟩) := by
  have hT : idx.resolveGroupItem giT = .ok (DEFAULT_SCHEMA, t) := by
    simp only [resolveGroupItem_eq, hTschema, hTname, hTalias, hTtable, if_true]
  have hA : idx.resolveGroupItem giA = .ok (DEFAULT_SCHEMA, t) := by
    simp only [resolveGroupItem_eq, hAschema, hAname, hAalias]
  refine ⟨hA.trans hT.symm, hA, ?_⟩
  have hloop : idx.indexGroupItems [giT, giA] [] =
      .error ⟨ErrKind.DuplicatedTableGroupItem, giA.span_range⟩ := by
    simp [Indexer.indexGroupItems, hT, hA, pmem]
  simp [Indexer.index_table_groups, hgname, hitems, hloop]

/-- A table group listing `users` directly and again through its alias. -/
def c5Group : TableGroupBlock :=
  { ident := mkId 300 305 "grp", items := [giUsers, giAliasU] }

theorem alias_and_direct_group_members_collide_witness :
    exIdx.resolve_alias "users" = none ∧
    exIdx.contains_table DEFAULT_SCHEMA "users" = true ∧
    exIdx.resolve_alias "U" = some (DEFAULT_SCHEMA, "users") ∧
    afind exIdx.table_group_map "grp" = none ∧
    exIdx.resolveGroupItem giAliasU = exIdx.resolveGroupItem giUsers ∧
    exIdx.index_table_groups [c5Group] =
      (exIdx, some ⟨ErrKind.DuplicatedTableGroupItem, (211, 220)⟩) :=
  ⟨by decide, by decide, by decide, rfl,
   (alias_and_direct_group_members_collide exIdx c5Group giUsers giAliasU "users" "U"
     rfl rfl rfl rfl rfl (by decide) (by decide) (by decide) rfl).1,
   (alias_and_direct_group_members_collide exIdx c5Group giUsers giAliasU "users" "U"
     rfl rfl rfl rfl rfl (by decide) (by decide) (by decide) rfl).2.2⟩


theorem smem_eq_false (acc : List String) (x : String) (h : x ∉ acc) :
    smem acc x = false := by
  rw [← Bool.not_eq_true, smem_iff_mem]
  exact h

theorem indexCols_no_err (cols : List TableColumn) (acc : List String)
    (hnd : (cols.map fun c => c.name.to_string).Nodup)
    (hdisj : ∀ c ∈ cols, c.name.to_string ∉ acc) :
    (indexCols cols acc).2 = none := by
  induction cols generalizing acc with
  | nil => rfl
  | cons col rest ih =>
    rw [List.map_cons, List.nodup_cons] at hnd
    rw [indexCols, smem_eq_false acc _ (hdisj col (List.mem_cons_self col rest))]
    simp only [Bool.false_eq_true, if_false]
    apply ih _ hnd.2
    intro c hc
    rw [List.mem_append, List.mem_singleton]
    rintro (hacc | heq)
    · exact hdisj c (List.mem_cons_of_mem col hc) hacc
    · exact hnd.1 (heq ▸ List.mem_map_of_mem (fun c => c.name.to_string) hc)

theorem indexValues_no_err (values : List EnumValue) (acc : List String)
    (hnd : (values.map fun v => v.value.to_string).Nodup)
    (hdisj : ∀ v ∈ values, v.value.to_string ∉ acc) :
    (indexValues values acc).2 = none := by
  induction values generalizing acc with
  | nil => rfl
  | cons value rest ih =>
    rw [List.map_cons, List.nodup_cons] at hnd
    rw [indexValues, smem_eq_false acc _ (hdisj value (List.mem_cons_self value rest))]
    simp only [Bool.false_eq_true, if_false]
    apply ih _ hnd.2
    intro v hv
    rw [List.mem_append, List.mem_singleton]
    rintro (hacc | heq)
    · exact hdisj v (List.mem_cons_of_mem value hv) hacc
    · exact hnd.1 (heq ▸ List.mem_map_of_mem (fun v => v.value.to_string) hv)

theorem find?_congr_perm {α : Type} (p : α → Bool) {l₁ l₂ : List α} (h : l₁.Perm l₂)
    (huniq : ∀ x ∈ l₁, ∀ y ∈ l₁, p x = true → p y = true → x = y) :
    l₁.find? p = l₂.find? p := by
  cases h₁ : l₁.find? p with
  | none =>
    cases h₂ : l₂.find? p with
    | none => rfl
    | some y =>
      have hy := List.mem_of_find?_eq_some h₂
      have hpy := List.find?_some h₂
      exact absurd hpy (List.find?_eq_none.mp h₁ y (h.mem_iff.mpr hy))
  | some x =>
    have hx := List.mem_of_find?_eq_some h₁
    have hpx := List.find?_some h₁
    cases h₂ : l₂.find? p with
    | none =>
      exact absurd hpx (List.find?_eq_none.mp h₂ x (h.mem_iff.mp hx))
    | some y =>
      have hy := h.mem_iff.mpr (List.mem_of_find?_eq_some h₂)
      have hpy := List.find?_some h₂
      rw [huniq x hx y hy hpx hpy]

theorem nodup_filterMap_inj {α β : Type} (f : α → Option β) {l : List α}
    (h : (l.filterMap f).Nodup) {x y : α} (hx : x ∈ l) (hy : y ∈ l) {b : β}
    (hfx : f x = some b) (hfy : f y = some b) : x = y := by
  induction l with
  | nil => cases hx
  | cons hd tl ih =>
    rw [List.filterMap_cons] at h
    cases hfhd : f hd with
    | none =>
      rw [hfhd] at h
      rcases List.mem_cons.mp hx with rfl | hx'
      · rw [hfx] at hfhd; cases hfhd
      rcases List.mem_cons.mp hy with rfl | hy'
      · rw [hfy] at hfhd; cases hfhd
      exact ih h hx' hy'
    | some bh =>
      rw [hfhd] at h
      have hnd := List.nodup_cons.mp h
      rcases List.mem_cons.mp hx with rfl | hx'
      · rcases List.mem_cons.mp hy with rfl | hy'
        · rfl
        · exfalso
          rw [hfx] at hfhd
          cases hfhd
          exact hnd.1 (List.mem_filterMap.mpr ⟨y, hy', hfy⟩)
      · rcases List.mem_cons.mp hy with rfl | hy'
        · exfalso
          rw [hfy] at hfhd
          cases hfhd
          exact hnd.1 (List.mem_filterMap.mpr ⟨x, hx', hfx⟩)
        · exact ih hnd.2 hx' hy'

theorem findCols_perm {T₁ T₂ : List TableBlock} (h : T₁.Perm T₂)
    (hnd : (T₁.map TableBlock.keyOf).Nodup) (s n : String) :
    findCols T₁ s n = findCols T₂ s n := by
  unfold findCols
  rw [find?_congr_perm _ h]
  intro x hx y hy hpx hpy
  exact List.inj_on_of_nodup_map hnd hx hy
    ((of_decide_eq_true hpx).trans (of_decide_eq_true hpy).symm)

theorem findVals_perm {E₁ E₂ : List EnumBlock} (h : E₁.Perm E₂)
    (hnd : (E₁.map EnumBlock.keyOf).Nodup) (s n : String) :
    findVals E₁ s n = findVals E₂ s n := by
  unfold findVals
  rw [find?_congr_perm _ h]
  intro x hx y hy hpx hpy
  exact List.inj_on_of_nodup_map hnd hx hy
    ((of_decide_eq_true hpx).trans (of_decide_eq_true hpy).symm)

theorem findAlias_perm {T₁ T₂ : List TableBlock} (h : T₁.Perm T₂)
    (hnd : (T₁.filterMap TableBlock.aliasName).Nodup) (a : String) :
    findAlias T₁ a = findAlias T₂ a := by
  unfold findAlias
  rw [find?_congr_perm _ h]
  intro x hx y hy hpx hpy
  exact nodup_filterMap_inj TableBlock.aliasName hnd hx hy
    (of_decide_eq_true hpx) (of_decide_eq_true hpy)

theorem findCols_eq_none (T : List TableBlock) (s n : String)
    (h : ∀ x ∈ T, x.keyOf ≠ (s, n)) : findCols T s n = none := by
  unfold findCols
  rw [List.find?_eq_none.mpr]
  · rfl
  · intro x hx
    simpa using h x hx

theorem findVals_eq_none (E : List EnumBlock) (s n : String)
    (h : ∀ x ∈ E, x.keyOf ≠ (s, n)) : findVals E s n = none := by
  unfold findVals
  rw [List.find?_eq_none.mpr]
  · rfl
  · intro x hx
    simpa using h x hx

theorem findAlias_eq_none (T : List TableBlock) (a : String)
    (h : ∀ x ∈ T, x.aliasName ≠ some a) : findAlias T a = none := by
  unfold findAlias
  rw [List.find?_eq_none.mpr]
  · rfl
  · intro x hx
    simpa using h x hx

theorem findCols_append_of_ne (T : List TableBlock) (t : TableBlock) (s n : String)
    (h : t.keyOf ≠ (s, n)) : findCols (T ++ [t]) s n = findCols T s n := by
  unfold findCols
  rw [List.find?_append]
  have : List.find? (fun x => x.keyOf = (s, n)) [t] = none := by
    rw [List.find?_eq_none.mpr]
    intro x hx
    rw [List.mem_singleton] at hx
    simpa [hx] using h
  rw [this, Option.or_none]

theorem findCols_append_self (T : List TableBlock) (t : TableBlock) (s n : String)
    (hkey : t.keyOf = (s, n)) (h : ∀ x ∈ T, x.keyOf ≠ (s, n)) :
    findCols (T ++ [t]) s n = some (indexCols t.cols []).1 := by
  unfold findCols
  rw [List.find?_append, List.find?_eq_none.mpr, Option.none_or,
    List.find?_cons_of_pos _ (by simpa using hkey)]
  · rfl
  · intro x hx
    simpa using h x hx

theorem findVals_append_of_ne (E : List EnumBlock) (e : EnumBlock) (s n : String)
    (h : e.keyOf ≠ (s, n)) : findVals (E ++ [e]) s n = findVals E s n := by
  unfold findVals
  rw [List.find?_append]
  have : List.find? (fun x => x.keyOf = (s, n)) [e] = none := by
    rw [List.find?_eq_none.mpr]
    intro x hx
    rw [List.mem_singleton] at hx
    simpa [hx] using h
  rw [this, Option.or_none]

theorem findVals_append_self (E : List EnumBlock) (e : EnumBlock) (s n : String)
    (hkey : e.keyOf = (s, n)) (h : ∀ x ∈ E, x.keyOf ≠ (s, n)) :
    findVals (E ++ [e]) s n = some (indexValues e.values []).1 := by
  unfold findVals
  rw [List.find?_append, List.find?_eq_none.mpr, Option.none_or,
    List.find?_cons_of_pos _ (by simpa using hkey)]
  · rfl
  · intro x hx
    simpa using h x hx

theorem findAlias_append_of_ne (T : List TableBlock) (t : TableBlock) (a : String)
    (h : t.aliasName ≠ some a) : findAlias (T ++ [t]) a = findAlias T a := by
  unfold findAlias
  rw [List.find?_append]
  have : List.find? (fun x => x.aliasName = some a) [t] = none := by
    rw [List.find?_eq_none.mpr]
    intro x hx
    rw [List.mem_singleton] at hx
    simpa [hx] using h
  rw [this, Option.or_none]

theorem findAlias_append_self (T : List TableBlock) (t : TableBlock) (a : String)
    (ha : t.aliasName = some a) (h : ∀ x ∈ T, x.aliasName ≠ some a) :
    findAlias (T ++ [t]) a = some t.keyOf := by
  unfold findAlias
  rw [List.find?_append, List.find?_eq_none.mpr, Option.none_or,
    List.find?_cons_of_pos _ (by simpa using ha)]
  · rfl
  · intro x hx
    simpa using h x hx

theorem tableKeyOf_def (t : TableBlock) :
    t.keyOf = (t.schemaName, t.ident.name.to_string) := rfl

theorem enumKeyOf_def (e : EnumBlock) :
    e.keyOf = (e.schemaName, e.ident.name.to_string) := rfl

theorem exists_mem_append_singleton {γ : Type} (P : γ → Prop) (T : List γ) (t : γ) :
    (∃ x ∈ T ++ [t], P x) ↔ (∃ x ∈ T, P x) ∨ P t := by
  constructor
  · rintro ⟨x, hx, hPx⟩
    rcases List.mem_append.mp hx with h | h
    · exact Or.inl ⟨x, h, hPx⟩
    · rw [List.mem_singleton] at h
      exact Or.inr (h ▸ hPx)
  · rintro (⟨x, hx, hPx⟩ | hPt)
    · exact ⟨x, List.mem_append_left _ hx, hPx⟩
    · exact ⟨t, List.mem_append_right _ (List.mem_singleton_self t), hPt⟩

theorem represents_empty : Represents Indexer.empty [] [] := by
  refine ⟨rfl, ?_, ?_, ?_, ?_⟩ <;> intro _ <;> simp [Indexer.empty, afind, findCols,
    findVals, findAlias, List.find?]

theorem schema_update_some (idx : Indexer) (T : List TableBlock) (E : List EnumBlock)
    (t : TableBlock) (block : IndexedSchemaBlock) (cs : List String)
    (M' : List (String × IndexedSchemaBlock))
    (hrep : Represents idx T E)
    (hsm : afind idx.schema_map t.schemaName = some block)
    (hkey : ∀ x ∈ T, x.keyOf ≠ t.keyOf)
    (hcs : cs = (indexCols t.cols []).1)
    (hM : M' = ainsert idx.schema_map t.schemaName
      ({ block with table_map := ainsert block.table_map t.ident.name.to_string cs })) :
    (∀ s n, ((afind M' s).bind fun b => afind b.table_map n) = findCols (T ++ [t]) s n) ∧
    (∀ s n, ((afind M' s).bind fun b => afind b.enum_map n) = findVals E s n) ∧
    (∀ s, (afind M' s).isSome ↔
      ((∃ x ∈ T ++ [t], x.schemaName = s) ∨ (∃ e ∈ E, e.schemaName = s))) := by
  subst hM
  have hkey' : ∀ x ∈ T, x.keyOf ≠ (t.schemaName, t.ident.name.to_string) := by
    intro x hx
    rw [← tableKeyOf_def]
    exact hkey x hx
  refine ⟨?_, ?_, ?_⟩
  · intro s n
    by_cases hs : s = t.schemaName
    · rw [hs, afind_ainsert_self, Option.some_bind]
      show afind (ainsert block.table_map t.ident.name.to_string cs) n =
        findCols (T ++ [t]) t.schemaName n
      by_cases hn : n = t.ident.name.to_string
      · rw [hn, afind_ainsert_self,
          findCols_append_self T t t.schemaName t.ident.name.to_string
            (tableKeyOf_def t) hkey', hcs]
      · rw [afind_ainsert_ne _ _ hn]
        have h₃ := hrep.tables t.schemaName n
        rw [hsm, Option.some_bind] at h₃
        rw [h₃, findCols_append_of_ne]
        rw [tableKeyOf_def]
        intro h
        exact hn (congrArg Prod.snd h).symm
    · rw [afind_ainsert_ne _ _ hs, hrep.tables, findCols_append_of_ne]
      rw [tableKeyOf_def]
      intro h
      exact hs (congrArg Prod.fst h).symm
  · intro s n
    by_cases hs : s = t.schemaName
    · rw [hs, afind_ainsert_self, Option.some_bind]
      show afind block.enum_map n = findVals E t.schemaName n
      have h₃ := hrep.enums t.schemaName n
      rw [hsm, Option.some_bind] at h₃
      exact h₃
    · rw [afind_ainsert_ne _ _ hs, hrep.enums]
  · intro s
    by_cases hs : s = t.schemaName
    · rw [hs, afind_ainsert_self]
      simp only [Option.isSome_some, true_iff]
      exact Or.inl ⟨t, List.mem_append_right _ (List.mem_singleton_self t), rfl⟩
    · rw [afind_ainsert_ne _ _ hs, hrep.schemas]
      have hiff : (∃ x ∈ T ++ [t], x.schemaName = s) ↔ (∃ x ∈ T, x.schemaName = s) := by
        rw [exists_mem_append_singleton]
        constructor
        · rintro (h | h)
          · exact h
          · exact absurd h.symm hs
        · exact Or.inl
      rw [hiff]

theorem schema_update_none (idx : Indexer) (T : List TableBlock) (E : List EnumBlock)
    (t : TableBlock) (cs : List String)
    (M' : List (String × IndexedSchemaBlock))
    (hrep : Represents idx T E)
    (hsm : afind idx.schema_map t.schemaName = none)
    (hcs : cs = (indexCols t.cols []).1)
    (hM : M' = ainsert idx.schema_map t.schemaName
      ({ table_map := ainsert [] t.ident.name.to_string cs, enum_map := [] })) :
    (∀ s n, ((afind M' s).bind fun b => afind b.table_map n) = findCols (T ++ [t]) s n) ∧
    (∀ s n, ((afind M' s).bind fun b => afind b.enum_map n) = findVals E s n) ∧
    (∀ s, (afind M' s).isSome ↔
      ((∃ x ∈ T ++ [t], x.schemaName = s) ∨ (∃ e ∈ E, e.schemaName = s))) := by
  subst hM
  have hkey' : ∀ x ∈ T, x.keyOf ≠ (t.schemaName, t.ident.name.to_string) := by
    intro x hx h
    have h₃ := hrep.schemas t.schemaName
    rw [hsm] at h₃
    have : (∃ x ∈ T, x.schemaName = t.schemaName) ∨ (∃ e ∈ E, e.schemaName = t.schemaName) :=
      Or.inl ⟨x, hx, congrArg Prod.fst h⟩
    exact absurd (h₃.mpr this) (by simp)
  refine ⟨?_, ?_, ?_⟩
  · intro s n
    by_cases hs : s = t.schemaName
    · rw [hs, afind_ainsert_self, Option.some_bind]
      show afind (ainsert [] t.ident.name.to_string cs) n = findCols (T ++ [t]) t.schemaName n
      by_cases hn : n = t.ident.name.to_string
      · rw [hn, afind_ainsert_self,
          findCols_append_self T t t.schemaName t.ident.name.to_string
            (tableKeyOf_def t) hkey', hcs]
      · rw [afind_ainsert_ne _ _ hn]
        have h₃ := hrep.tables t.schemaName n
        rw [hsm, Option.none_bind] at h₃
        rw [findCols_append_of_ne T t t.schemaName n
          (by rw [tableKeyOf_def]; intro h; exact hn (congrArg Prod.snd h).symm), ← h₃]
        rfl
    · rw [afind_ainsert_ne _ _ hs, hrep.tables, findCols_append_of_ne]
      rw [tableKeyOf_def]
      intro h
      exact hs (congrArg Prod.fst h).symm
  · intro s n
    by_cases hs : s = t.schemaName
    · rw [hs, afind_ainsert_self, Option.some_bind]
      show afind ([] : List (String × List String)) n = findVals E t.schemaName n
      have h₃ := hrep.enums t.schemaName n
      rw [hsm, Option.none_bind] at h₃
      exact h₃
    · rw [afind_ainsert_ne _ _ hs, hrep.enums]
  · intro s
    by_cases hs : s = t.schemaName
    · rw [hs, afind_ainsert_self]
      simp only [Option.isSome_some, true_iff]
      exact Or.inl ⟨t, List.mem_append_right _ (List.mem_singleton_self t), rfl⟩
    · rw [afind_ainsert_ne _ _ hs, hrep.schemas]
      have hiff : (∃ x ∈ T ++ [t], x.schemaName = s) ↔ (∃ x ∈ T, x.schemaName = s) := by
        rw [exists_mem_append_singleton]
        constructor
        · rintro (h | h)
          · exact h
          · exact absurd h.symm hs
        · exact Or.inl
      rw [hiff]

theorem alias_update_some (idx : Indexer) (T : List TableBlock) (t : TableBlock) (a : Ident)
    (A' : List (String × (String × String)))
    (haliases : ∀ al, afind idx.table_alias_map al = findAlias T al)
    (hal : t.ident.«alias» = some a)
    (hfresh : ∀ x ∈ T, x.aliasName ≠ some a.to_string)
    (hA : A' = ainsert idx.table_alias_map a.to_string
      (t.schemaName, t.ident.name.to_string)) :
    ∀ al, afind A' al = findAlias (T ++ [t]) al := by
  subst hA
  intro al
  have htal : t.aliasName = some a.to_string := by
    simp [TableBlock.aliasName, hal]
  by_cases h : al = a.to_string
  · rw [h, afind_ainsert_self,
      findAlias_append_self T t a.to_string htal hfresh, tableKeyOf_def]
  · rw [afind_ainsert_ne _ _ h, haliases, findAlias_append_of_ne]
    rw [htal]
    intro hh
    exact h (Option.some.inj hh).symm

theorem alias_update_none (idx : Indexer) (T : List TableBlock) (t : TableBlock)
    (haliases : ∀ al, afind idx.table_alias_map al = findAlias T al)
    (hal : t.ident.«alias» = none) :
    ∀ al, afind idx.table_alias_map al = findAlias (T ++ [t]) al := by
  intro al
  rw [haliases, findAlias_append_of_ne]
  simp [TableBlock.aliasName, hal]

theorem index_table_step_ok (idx : Indexer) (T : List TableBlock) (E : List EnumBlock)
    (t : TableBlock) (hrep : Represents idx T E)
    (hkey : ∀ x ∈ T, x.keyOf ≠ t.keyOf)
    (hcolsnd : (t.cols.map fun c => c.name.to_string).Nodup)
    (halias : ∀ a, t.aliasName = some a → ∀ x ∈ T, x.aliasName ≠ some a) :
    (idx.index_table_step t).2 = none ∧
    Represents (idx.index_table_step t).1 (T ++ [t]) E := by
  have hnone : findCols T t.schemaName t.ident.name.to_string = none :=
    findCols_eq_none _ _ _ fun x hx => by
      rw [← tableKeyOf_def]
      exact hkey x hx
  have hct : idx.contains_table t.schemaName t.ident.name.to_string = false := by
    rw [contains_table_eq_bind, hrep.tables, hnone]
    rfl
  have hic : (indexCols t.cols []).2 = none :=
    indexCols_no_err t.cols [] hcolsnd (by simp)
  rcases hic2 : indexCols t.cols [] with ⟨cs, er⟩
  have her : er = none := by rw [hic2] at hic; exact hic
  subst her
  have hcs : cs = (indexCols t.cols []).1 := by rw [hic2]
  cases hsm : afind idx.schema_map t.schemaName with
  | some block =>
    cases hal : t.ident.«alias» with
    | some a =>
      have htal : t.aliasName = some a.to_string := by
        simp [TableBlock.aliasName, hal]
      have hfa : afind idx.table_alias_map a.to_string = none := by
        rw [hrep.aliases]
        exact findAlias_eq_none T a.to_string (halias a.to_string htal)
      have hstep : idx.index_table_step t =
          ({ idx with
              schema_map := ainsert idx.schema_map t.schemaName
                ({ block with
                    table_map := ainsert block.table_map t.ident.name.to_string cs }),
              table_alias_map := ainsert idx.table_alias_map a.to_string
                (t.schemaName, t.ident.name.to_string) }, none) := by
        simp only [Indexer.index_table_step, hct, Bool.false_eq_true, if_false, hic2, hsm,
          hal, hfa]
      rw [hstep]
      obtain ⟨ht, he, hs⟩ := schema_update_some idx T E t block cs _ hrep hsm hkey hcs rfl
      exact ⟨rfl, hrep.groups, ht, he, hs,
        alias_update_some idx T t a _ hrep.aliases hal (halias a.to_string htal) rfl⟩
    | none =>
      have hstep : idx.index_table_step t =
          ({ idx with
              schema_map := ainsert idx.schema_map t.schemaName
                ({ block with
                    table_map := ainsert block.table_map t.ident.name.to_string cs }) },
            none) := by
        simp only [Indexer.index_table_step, hct, Bool.false_eq_true, if_false, hic2, hsm,
          hal]
      rw [hstep]
      obtain ⟨ht, he, hs⟩ := schema_update_some idx T E t block cs _ hrep hsm hkey hcs rfl
      exact ⟨rfl, hrep.groups, ht, he, hs,
        alias_update_none idx T t hrep.aliases hal⟩
  | none =>
    cases hal : t.ident.«alias» with
    | some a =>
      have htal : t.aliasName = some a.to_string := by
        simp [TableBlock.aliasName, hal]
      have hstep : idx.index_table_step t =
          ({ idx with
              schema_map := ainsert idx.schema_map t.schemaName
                ({ table_map := ainsert [] t.ident.name.to_string cs, enum_map := [] }),
              table_alias_map := ainsert idx.table_alias_map a.to_string
                (t.schemaName, t.ident.name.to_string) }, none) := by
        simp only [Indexer.index_table_step, hct, Bool.false_eq_true, if_false, hic2, hsm,
          hal]
      rw [hstep]
      obtain ⟨ht, he, hs⟩ := schema_update_none idx T E t cs _ hrep hsm hcs rfl
      exact ⟨rfl, hrep.groups, ht, he, hs,
        alias_update_some idx T t a _ hrep.aliases hal (halias a.to_string htal) rfl⟩
    | none =>
      have hstep : idx.index_table_step t =
          ({ idx with
              schema_map := ainsert idx.schema_map t.schemaName
                ({ table_map := ainsert [] t.ident.name.to_string cs, enum_map := [] }) },
            none) := by
        simp only [Indexer.index_table_step, hct, Bool.false_eq_true, if_false, hic2, hsm,
          hal]
      rw [hstep]
      obtain ⟨ht, he, hs⟩ := schema_update_none idx T E t cs _ hrep hsm hcs rfl
      exact ⟨rfl, hrep.groups, ht, he, hs,
        alias_update_none idx T t hrep.aliases hal⟩

theorem index_table_spec (rest : List TableBlock) (idx : Indexer) (T : List TableBlock)
    (E : List EnumBlock) (hrep : Represents idx T E)
    (hok : TablesOk (T ++ rest)) :
    (idx.index_table rest).2 = none ∧
    Represents (idx.index_table rest).1 (T ++ rest) E := by
  induction rest generalizing idx T with
  | nil =>
    refine ⟨rfl, ?_⟩
    rw [List.append_nil]
    exact hrep
  | cons t rest ih =>
    obtain ⟨hkeys, hcols, haliases⟩ := hok
    have hkey : ∀ x ∈ T, x.keyOf ≠ t.keyOf := by
      intro x hx h
      have hdisj := List.disjoint_of_nodup_append
        (by simpa [List.map_append] using hkeys)
      exact hdisj (h ▸ List.mem_map_of_mem TableBlock.keyOf hx) (by simp)
    have hcolnd : (t.cols.map fun c => c.name.to_string).Nodup :=
      hcols t (by simp)
    have halias : ∀ a, t.aliasName = some a → ∀ x ∈ T, x.aliasName ≠ some a := by
      intro a hta x hx hxa
      have hdisj := List.disjoint_of_nodup_append
        (by simpa [List.filterMap_append] using haliases)
      exact hdisj (List.mem_filterMap.mpr ⟨x, hx, hxa⟩)
        (by simp [List.filterMap_cons, hta])
    obtain ⟨hstep2, hsteprep⟩ := index_table_step_ok idx T E t hrep hkey hcolnd halias
    rcases hstep : idx.index_table_step t with ⟨idx', er⟩
    have her : er = none := by rw [hstep] at hstep2; exact hstep2
    subst her
    have hrep' : Represents idx' (T ++ [t]) E := by
      rw [hstep] at hsteprep
      exact hsteprep
    have hrun : idx.index_table (t :: rest) = idx'.index_table rest := by
      rw [Indexer.index_table, hstep]
    rw [hrun]
    have hassoc : (T ++ [t]) ++ rest = T ++ t :: rest := by
      rw [List.append_assoc]
      rfl
    have hok' : TablesOk ((T ++ [t]) ++ rest) := by
      rw [hassoc]
      exact ⟨hkeys, hcols, haliases⟩
    have hfin := ih idx' (T ++ [t]) hrep' hok'
    rw [hassoc] at hfin
    exact hfin

theorem enum_update_some (idx : Indexer) (T : List TableBlock) (E : List EnumBlock)
    (e : EnumBlock) (block : IndexedSchemaBlock) (vs : List String)
    (M' : List (String × IndexedSchemaBlock))
    (hrep : Represents idx T E)
    (hsm : afind idx.schema_map e.schemaName = some block)
    (hkey : ∀ x ∈ E, x.keyOf ≠ e.keyOf)
    (hvs : vs = (indexValues e.values []).1)
    (hM : M' = ainsert idx.schema_map e.schemaName
      ({ block with enum_map := ainsert block.enum_map e.ident.name.to_string vs })) :
    (∀ s n, ((afind M' s).bind fun b => afind b.table_map n) = findCols T s n) ∧
    (∀ s n, ((afind M' s).bind fun b => afind b.enum_map n) = findVals (E ++ [e]) s n) ∧
    (∀ s, (afind M' s).isSome ↔
      ((∃ x ∈ T, x.schemaName = s) ∨ (∃ x ∈ E ++ [e], x.schemaName = s))) := by
  subst hM
  have hkey' : ∀ x ∈ E, x.keyOf ≠ (e.schemaName, e.ident.name.to_string) := by
    intro x hx
    rw [← enumKeyOf_def]
    exact hkey x hx
  refine ⟨?_, ?_, ?_⟩
  · intro s n
    by_cases hs : s = e.schemaName
    · rw [hs, afind_ainsert_self, Option.some_bind]
      show afind block.table_map n = findCols T e.schemaName n
      have h₃ := hrep.tables e.schemaName n
      rw [hsm, Option.some_bind] at h₃
      exact h₃
    · rw [afind_ainsert_ne _ _ hs, hrep.tables]
  · intro s n
    by_cases hs : s = e.schemaName
    · rw [hs, afind_ainsert_self, Option.some_bind]
      show afind (ainsert block.enum_map e.ident.name.to_string vs) n =
        findVals (E ++ [e]) e.schemaName n
      by_cases hn : n = e.ident.name.to_string
      · rw [hn, afind_ainsert_self,
          findVals_append_self E e e.schemaName e.ident.name.to_string
            (enumKeyOf_def e) hkey', hvs]
      · rw [afind_ainsert_ne _ _ hn]
        have h₃ := hrep.enums e.schemaName n
        rw [hsm, Option.some_bind] at h₃
        rw [h₃, findVals_append_of_ne]
        rw [enumKeyOf_def]
        intro h
        exact hn (congrArg Prod.snd h).symm
    · rw [afind_ainsert_ne _ _ hs, hrep.enums, findVals_append_of_ne]
      rw [enumKeyOf_def]
      intro h
      exact hs (congrArg Prod.fst h).symm
  · intro s
    by_cases hs : s = e.schemaName
    · rw [hs, afind_ainsert_self]
      simp only [Option.isSome_some, true_iff]
      exact Or.inr ⟨e, List.mem_append_right _ (List.mem_singleton_self e), rfl⟩
    · rw [afind_ainsert_ne _ _ hs, hrep.schemas]
      have hiff : (∃ x ∈ E ++ [e], x.schemaName = s) ↔ (∃ x ∈ E, x.schemaName = s) := by
        rw [exists_mem_append_singleton]
        constructor
        · rintro (h | h)
          · exact h
          · exact absurd h.symm hs
        · exact Or.inl
      rw [hiff]

theorem enum_update_none (idx : Indexer) (T : List TableBlock) (E : List EnumBlock)
    (e : EnumBlock) (vs : List String)
    (M' : List (String × IndexedSchemaBlock))
    (hrep : Represents idx T E)
    (hsm : afind idx.schema_map e.schemaName = none)
    (hvs : vs = (indexValues e.values []).1)
    (hM : M' = ainsert idx.schema_map e.schemaName
      ({ table_map := [], enum_map := ainsert [] e.ident.name.to_string vs })) :
    (∀ s n, ((afind M' s).bind fun b => afind b.table_map n) = findCols T s n) ∧
    (∀ s n, ((afind M' s).bind fun b => afind b.enum_map n) = findVals (E ++ [e]) s n) ∧
    (∀ s, (afind M' s).isSome ↔
      ((∃ x ∈ T, x.schemaName = s) ∨ (∃ x ∈ E ++ [e], x.schemaName = s))) := by
  subst hM
  have hkey' : ∀ x ∈ E, x.keyOf ≠ (e.schemaName, e.ident.name.to_string) := by
    intro x hx h
    have h₃ := hrep.schemas e.schemaName
    rw [hsm] at h₃
    have : (∃ t ∈ T, t.schemaName = e.schemaName) ∨ (∃ x ∈ E, x.schemaName = e.schemaName) :=
      Or.inr ⟨x, hx, congrArg Prod.fst h⟩
    exact absurd (h₃.mpr this) (by simp)
  refine ⟨?_, ?_, ?_⟩
  · intro s n
    by_cases hs : s = e.schemaName
    · rw [hs, afind_ainsert_self, Option.some_bind]
      show afind ([] : List (String × List String)) n = findCols T e.schemaName n
      have h₃ := hrep.tables e.schemaName n
      rw [hsm, Option.none_bind] at h₃
      exact h₃
    · rw [afind_ainsert_ne _ _ hs, hrep.tables]
  · intro s n
    by_cases hs : s = e.schemaName
    · rw [hs, afind_ainsert_self, Option.some_bind]
      show afind (ainsert [] e.ident.name.to_string vs) n = findVals (E ++ [e]) e.schemaName n
      by_cases hn : n = e.ident.name.to_string
      · rw [hn, afind_ainsert_self,
          findVals_append_self E e e.schemaName e.ident.name.to_string
            (enumKeyOf_def e) hkey', hvs]
      · rw [afind_ainsert_ne _ _ hn]
        have h₃ := hrep.enums e.schemaName n
        rw [hsm, Option.none_bind] at h₃
        rw [findVals_append_of_ne E e e.schemaName n
          (by rw [enumKeyOf_def]; intro h; exact hn (congrArg Prod.snd h).symm), ← h₃]
        rfl
    · rw [afind_ainsert_ne _ _ hs, hrep.enums, findVals_append_of_ne]
      rw [enumKeyOf_def]
      intro h
      exact hs (congrArg Prod.fst h).symm
  · intro s
    by_cases hs : s = e.schemaName
    · rw [hs, afind_ainsert_self]
      simp only [Option.isSome_some, true_iff]
      exact Or.inr ⟨e, List.mem_append_right _ (List.mem_singleton_self e), rfl⟩
    · rw [afind_ainsert_ne _ _ hs, hrep.schemas]
      have hiff : (∃ x ∈ E ++ [e], x.schemaName = s) ↔ (∃ x ∈ E, x.schemaName = s) := by
        rw [exists_mem_append_singleton]
        constructor
        · rintro (h | h)
          · exact h
          · exact absurd h.symm hs
        · exact Or.inl
      rw [hiff]

theorem index_enums_step_ok (idx : Indexer) (T : List TableBlock) (E : List EnumBlock)
    (e : EnumBlock) (hrep : Represents idx T E)
    (hkey : ∀ x ∈ E, x.keyOf ≠ e.keyOf)
    (hvalsnd : (e.values.map fun v => v.value.to_string).Nodup) :
    (idx.index_enums_step e).2 = none ∧
    Represents (idx.index_enums_step e).1 T (E ++ [e]) := by
  have hnone : findVals E e.schemaName e.ident.name.to_string = none :=
    findVals_eq_none _ _ _ fun x hx => by
      rw [← enumKeyOf_def]
      exact hkey x hx
  have hce : idx.contains_enum e.schemaName e.ident.name.to_string = false := by
    rw [contains_enum_eq_bind, hrep.enums, hnone]
    rfl
  have hiv : (indexValues e.values []).2 = none :=
    indexValues_no_err e.values [] hvalsnd (by simp)
  rcases hiv2 : indexValues e.values [] with ⟨vs, er⟩
  have her : er = none := by rw [hiv2] at hiv; exact hiv
  subst her
  have hvs : vs = (indexValues e.values []).1 := by rw [hiv2]
  cases hsm : afind idx.schema_map e.schemaName with
  | some block =>
    have hstep : idx.index_enums_step e =
        ({ idx with
            schema_map := ainsert idx.schema_map e.schemaName
              ({ block with
                  enum_map := ainsert block.enum_map e.ident.name.to_string vs }) },
          none) := by
      simp only [Indexer.index_enums_step, hce, Bool.false_eq_true, if_false, hiv2, hsm]
    rw [hstep]
    obtain ⟨ht, he, hs⟩ := enum_update_some idx T E e block vs _ hrep hsm hkey hvs rfl
    exact ⟨rfl, hrep.groups, ht, he, hs, hrep.aliases⟩
  | none =>
    have hstep : idx.index_enums_step e =
        ({ idx with
            schema_map := ainsert idx.schema_map e.schemaName
              ({ table_map := [], enum_map := ainsert [] e.ident.name.to_string vs }) },
          none) := by
      simp only [Indexer.index_enums_step, hce, Bool.false_eq_true, if_false, hiv2, hsm]
    rw [hstep]
    obtain ⟨ht, he, hs⟩ := enum_update_none idx T E e vs _ hrep hsm hvs rfl
    exact ⟨rfl, hrep.groups, ht, he, hs, hrep.aliases⟩

theorem index_enums_spec (rest : List EnumBlock) (idx : Indexer) (T : List TableBlock)
    (E : List EnumBlock) (hrep : Represents idx T E)
    (hok : EnumsOk (E ++ rest)) :
    (idx.index_enums rest).2 = none ∧
    Represents (idx.index_enums rest).1 T (E ++ rest) := by
  induction rest generalizing idx E with
  | nil =>
    refine ⟨rfl, ?_⟩
    rw [List.append_nil]
    exact hrep
  | cons e rest ih =>
    obtain ⟨hkeys, hvals⟩ := hok
    have hkey : ∀ x ∈ E, x.keyOf ≠ e.keyOf := by
      intro x hx h
      have hdisj := List.disjoint_of_nodup_append
        (by simpa [List.map_append] using hkeys)
      exact hdisj (h ▸ List.mem_map_of_mem EnumBlock.keyOf hx) (by simp)
    have hvalnd : (e.values.map fun v => v.value.to_string).Nodup :=
      hvals e (by simp)
    obtain ⟨hstep2, hsteprep⟩ := index_enums_step_ok idx T E e hrep hkey hvalnd
    rcases hstep : idx.index_enums_step e with ⟨idx', er⟩
    have her : er = none := by rw [hstep] at hstep2; exact hstep2
    subst her
    have hrep' : Represents idx' T (E ++ [e]) := by
      rw [hstep] at hsteprep
      exact hsteprep
    have hrun : idx.index_enums (e :: rest) = idx'.index_enums rest := by
      rw [Indexer.index_enums, hstep]
    rw [hrun]
    have hassoc : (E ++ [e]) ++ rest = E ++ e :: rest := by
      rw [List.append_assoc]
      rfl
    have hok' : EnumsOk ((E ++ [e]) ++ rest) := by
      rw [hassoc]
      exact ⟨hkeys, hvals⟩
    have hfin := ih idx' (E ++ [e]) hrep' hok'
    rw [hassoc] at hfin
    exact hfin

theorem represents_equiv (i₁ i₂ : Indexer) (T₁ T₂ : List TableBlock)
    (E₁ E₂ : List EnumBlock)
    (h₁ : Represents i₁ T₁ E₁) (h₂ : Represents i₂ T₂ E₂)
    (hT : T₁.Perm T₂) (hE : E₁.Perm E₂)
    (hTk : (T₁.map TableBlock.keyOf).Nodup)
    (hEk : (E₁.map EnumBlock.keyOf).Nodup)
    (hTa : (T₁.filterMap TableBlock.aliasName).Nodup) :
    i₁.MapEquiv i₂ := by
  refine ⟨?_, ?_, ?_⟩
  · intro g
    rw [h₁.groups, h₂.groups]
  · intro s
    have hsome : (afind i₁.schema_map s).isSome ↔ (afind i₂.schema_map s).isSome := by
      rw [h₁.schemas, h₂.schemas]
      constructor
      · rintro (⟨x, hx, hxs⟩ | ⟨x, hx, hxs⟩)
        · exact Or.inl ⟨x, hT.mem_iff.mp hx, hxs⟩
        · exact Or.inr ⟨x, hE.mem_iff.mp hx, hxs⟩
      · rintro (⟨x, hx, hxs⟩ | ⟨x, hx, hxs⟩)
        · exact Or.inl ⟨x, hT.mem_iff.mpr hx, hxs⟩
        · exact Or.inr ⟨x, hE.mem_iff.mpr hx, hxs⟩
    cases hb₁ : afind i₁.schema_map s with
    | none =>
      cases hb₂ : afind i₂.schema_map s with
      | none => exact trivial
      | some b₂ =>
        rw [hb₁, hb₂] at hsome
        simp at hsome
    | some b₁ =>
      cases hb₂ : afind i₂.schema_map s with
      | none =>
        rw [hb₁, hb₂] at hsome
        simp at hsome
      | some b₂ =>
        show b₁.MapEquiv b₂
        constructor
        · intro n
          have e₁ := h₁.tables s n
          rw [hb₁, Option.some_bind] at e₁
          have e₂ := h₂.tables s n
          rw [hb₂, Option.some_bind] at e₂
          rw [e₁, e₂, findCols_perm hT hTk]
        · intro n
          have e₁ := h₁.enums s n
          rw [hb₁, Option.some_bind] at e₁
          have e₂ := h₂.enums s n
          rw [hb₂, Option.some_bind] at e₂
          rw [e₁, e₂, findVals_perm hE hEk]
  · intro a
    rw [h₁.aliases, h₂.aliases, findAlias_perm hT hTa]

/-- Claim C6: indexing two permutations of the same duplicate-free set of table
declarations succeeds on both and produces identical final symbol tables:
equal table-group, schema (with per-schema table and enum contents), and
alias maps, where map equality is `BTreeMap` contents equality. -/
theorem index_table_order_independent (L₁ L₂ : List TableBlock)
    (hperm : L₁.Perm L₂)
    (hkeys : (L₁.map TableBlock.keyOf).Nodup)
    (hcols : ∀ t ∈ L₁, (t.cols.map fun c => c.name.to_string).Nodup)
    (haliases : (L₁.filterMap TableBlock.aliasName).Nodup) :
    (Indexer.empty.index_table L₁).2 = none ∧
    (Indexer.empty.index_table L₂).2 = none ∧
    (Indexer.empty.index_table L₁).1.MapEquiv (Indexer.empty.index_table L₂).1 := by
  have hok₁ : TablesOk ([] ++ L₁) := ⟨hkeys, hcols, haliases⟩
  have hok₂ : TablesOk ([] ++ L₂) := by
    refine ⟨?_, ?_, ?_⟩
    · exact ((hperm.map TableBlock.keyOf).nodup_iff).mp hkeys
    · intro t ht
      exact hcols t (hperm.mem_iff.mpr ht)
    · exact ((hperm.filterMap TableBlock.aliasName).nodup_iff).mp haliases
  have r₁ := index_table_spec L₁ Indexer.empty [] [] represents_empty hok₁
  have r₂ := index_table_spec L₂ Indexer.empty [] [] represents_empty hok₂
  exact ⟨r₁.1, r₂.1,
    represents_equiv _ _ ([] ++ L₁) ([] ++ L₂) [] [] r₁.2 r₂.2 hperm (List.Perm.refl [])
      hkeys List.nodup_nil haliases⟩

/-- Claim C7: on input with no duplicate names at any scope, `index_table` then
`index_enums` succeed, and afterwards `contains_table` (resp.
`contains_enum`) returns `true` for every declared `(schema, name)` pair. -/
theorem indexing_success_and_contains (T : List TableBlock) (E : List EnumBlock)
    (hT : TablesOk T) (hE : EnumsOk E) :
    (Indexer.empty.index_table T).2 = none ∧
    ((Indexer.empty.index_table T).1.index_enums E).2 = none ∧
    (∀ t ∈ T, ((Indexer.empty.index_table T).1.index_enums E).1.contains_table
      t.schemaName t.ident.name.to_string = true) ∧
    (∀ e ∈ E, ((Indexer.empty.index_table T).1.index_enums E).1.contains_enum
      e.schemaName e.ident.name.to_string = true) := by
  have r₁ := index_table_spec T Indexer.empty [] [] represents_empty hT
  have r₂ := index_enums_spec E (Indexer.empty.index_table T).1 ([] ++ T) [] r₁.2 hE
  refine ⟨r₁.1, r₂.1, ?_, ?_⟩
  · intro t ht
    have hch := r₂.2.tables t.schemaName t.ident.name.to_string
    have hfind : (([] ++ T).find? fun x : TableBlock =>
        x.keyOf = (t.schemaName, t.ident.name.to_string)).isSome :=
      List.find?_isSome.mpr ⟨t, List.mem_append_right _ ht, by simp [tableKeyOf_def]⟩
    obtain ⟨x, hx⟩ := Option.isSome_iff_exists.mp hfind
    rw [contains_table_eq_bind, hch]
    unfold findCols
    rw [hx]
    rfl
  · intro e he
    have hch := r₂.2.enums e.schemaName e.ident.name.to_string
    have hfind : (([] ++ E).find? fun x : EnumBlock =>
        x.keyOf = (e.schemaName, e.ident.name.to_string)).isSome :=
      List.find?_isSome.mpr ⟨e, List.mem_append_right _ he, by simp [enumKeyOf_def]⟩
    obtain ⟨x, hx⟩ := Option.isSome_iff_exists.mp hfind
    rw [contains_enum_eq_bind, hch]
    unfold findVals
    rw [hx]
    rfl

/-- Table `a` of the default schema, alias `A1`, column `x`. -/
def wTableA : TableBlock :=
  { ident := { span_range := (400, 410), schema := none, name := mkId 401 402 "a",
               «alias» := some (mkId 403 404 "A1") },
    cols := [{ span_range := (405, 406), name := mkId 405 406 "x" }] }

/-- Table `b` of schema `s`, alias `B1`, no columns. -/
def wTableB : TableBlock :=
  { ident := { span_range := (411, 420), schema := some (mkId 411 412 "s"),
               name := mkId 413 414 "b", «alias» := some (mkId 415 416 "B1") },
    cols := [] }

/-- Enum `status` of the default schema with one value. -/
def wEnum : EnumBlock :=
  { ident := { span_range := (430, 440), schema := none, name := mkId 431 436 "status" },
    values := [{ span_range := (437, 438), value := mkId 437 438 "on" }] }

theorem index_table_order_independent_witness :
    [wTableA, wTableB].Perm [wTableB, wTableA] ∧
    ([wTableA, wTableB].map TableBlock.keyOf).Nodup ∧
    (∀ t ∈ [wTableA, wTableB], (t.cols.map fun c => c.name.to_string).Nodup) ∧
    ([wTableA, wTableB].filterMap TableBlock.aliasName).Nodup ∧
    (Indexer.empty.index_table [wTableA, wTableB]).2 = none ∧
    (Indexer.empty.index_table [wTableB, wTableA]).2 = none ∧
    (Indexer.empty.index_table [wTableA, wTableB]).1.MapEquiv
      (Indexer.empty.index_table [wTableB, wTableA]).1 :=
  have h := index_table_order_independent [wTableA, wTableB] [wTableB, wTableA]
    (by decide) (by decide) (by decide) (by decide)
  ⟨by decide, by decide, by decide, by decide, h.1, h.2.1, h.2.2⟩

theorem indexing_success_and_contains_witness :
    ([wTableA, wTableB].map TableBlock.keyOf).Nodup ∧
    ([wEnum].map EnumBlock.keyOf).Nodup ∧
    ((Indexer.empty.index_table [wTableA, wTableB]).2 = none ∧
     ((Indexer.empty.index_table [wTableA, wTableB]).1.index_enums [wEnum]).2 = none ∧
     (∀ t ∈ [wTableA, wTableB],
       ((Indexer.empty.index_table [wTableA, wTableB]).1.index_enums [wEnum]).1.contains_table
         t.schemaName t.ident.name.to_string = true) ∧
     (∀ e ∈ [wEnum],
       ((Indexer.empty.index_table [wTableA, wTableB]).1.index_enums [wEnum]).1.contains_enum
         e.schemaName e.ident.name.to_string = true)) :=
  ⟨by decide, by decide,
   indexing_success_and_contains [wTableA, wTableB] [wEnum]
     ⟨by decide, by decide, by decide⟩ ⟨by decide, by decide⟩⟩
